import Mathlib

/-!
Verification of the `ttlcache` in-memory cache (package `ttlcache`,
file `cache.go`).

Shallow embedding conventions:
* Go `time.Time` instants and `time.Duration` values are both modelled as
  `Int` (nanosecond counts); `time.Millisecond` is `1000000`.
* The Go zero `time.Time` of an untouched `Item` is modelled as
  `Option Int` being `none`.
* The Go built-in `map[string]*Item` is modelled as an association list
  with Go map semantics: assignment replaces an existing binding,
  `delete` removes it, `len` is the length.
* Every side-effecting method becomes a function from cache state (plus a
  `now : Int` for each `time.Now()` the call would perform) to cache state.
* Launching the background reaper goroutine (`go func` in
  `startTTLCleanupTimer`) is an effect outside the Go struct; it is
  recorded in a ghost field `periods` listing, in order, the tick period
  of every reaper goroutine ever launched for this cache value.
-/

namespace TTLCache

/-- `time.Millisecond` in nanoseconds. -/
def millisecond : Int := 1000000

/-- Modelled from the spec: the `Entry`/`Item` type lives in `item.go`,
which is not among the available sources; per §3–4.1 of the spec an entry
holds an opaque `value` payload and an `expiresAt` absolute timestamp that
may be unset (`none` models the Go zero time). -/
structure Item (V : Type) where
  data : V
  expires : Option Int
deriving Repr, DecidableEq

/-- Modelled from the spec: `touch(ttl)` sets `expiresAt = now + ttl`,
mutating the entry in place (here: returning the updated entry). -/
def Item.touch {V : Type} (item : Item V) (ttl : Int) (now : Int) : Item V :=
  { item with expires := some (now + ttl) }

/-- Modelled from the spec: `expired()` returns true iff `expiresAt` is
set and strictly in the past relative to `now`. -/
def Item.expired {V : Type} (item : Item V) (now : Int) : Bool :=
  match item.expires with
  | none => false
  | some t => decide (t < now)

/-- Lookup in the Go map `items[key]` (the `item, exists := ...` form). -/
def mapGet {V : Type} (m : List (String × Item V)) (k : String) : Option (Item V) :=
  match m with
  | [] => none
  | (k', v') :: rest => if k' = k then some v' else mapGet rest k

/-- Go map assignment `items[key] = item`: replaces an existing binding
for `key`, otherwise adds a new one. -/
def mapSet {V : Type} (m : List (String × Item V)) (k : String) (v : Item V) :
    List (String × Item V) :=
  match m with
  | [] => [(k, v)]
  | (k', v') :: rest => if k' = k then (k, v) :: rest else (k', v') :: mapSet rest k v

/-- Go `delete(items, key)`: removes the binding for `key` if present. -/
def mapDelete {V : Type} (m : List (String × Item V)) (k : String) :
    List (String × Item V) :=
  match m with
  | [] => []
  | (k', v') :: rest => if k' = k then rest else (k', v') :: mapDelete rest k

/-- The `Cache` struct of `cache.go`.  The `mutex` field is not part of
the value state (its acquisition discipline is modelled separately by
`accessOf` below).  `ttl`, `items` and `isTTL` are the Go struct fields;
`periods` is the ghost record of reaper-goroutine launches described in
the file header. -/
structure Cache (V : Type) where
  ttl : Int
  items : List (String × Item V)
  isTTL : Bool
  periods : List Int
deriving Repr, DecidableEq

/-- `startTTLCleanupTimer`: when the cache is in TTL mode, computes the
tick period (the default TTL clamped below at one millisecond) and
launches the reaper goroutine, recorded by appending the period to the
ghost `periods` list. -/
def Cache.startTTLCleanupTimer {V : Type} (c : Cache V) : Cache V :=
  if c.isTTL then
    let duration := if c.ttl < millisecond then millisecond else c.ttl
    { c with periods := c.periods ++ [duration] }
  else c

/-- `NewTTLCache`: TTL-mode constructor; starts the reaper. -/
def NewTTLCache {V : Type} (duration : Int) : Cache V :=
  let cache : Cache V := { ttl := duration, items := [], isTTL := true, periods := [] }
  cache.startTTLCleanupTimer

/-- `NewCache`: unbounded-mode constructor (Go zero value for `ttl`). -/
def NewCache {V : Type} : Cache V :=
  { ttl := 0, items := [], isTTL := false, periods := [] }

/-- `Cache.Set`: inserts `&Item{data: data}`, touched with the default
TTL first when the cache is in TTL mode. -/
def Cache.Set {V : Type} (c : Cache V) (key : String) (data : V) (now : Int) : Cache V :=
  let item : Item V := { data := data, expires := none }
  let item := if c.isTTL then item.touch c.ttl now else item
  { c with items := mapSet c.items key item }

/-- `Cache.SetTTL`: on a non-TTL cache first flips `isTTL` and starts the
reaper; then inserts the new item touched with the given `ttl`. -/
def Cache.SetTTL {V : Type} (c : Cache V) (key : String) (data : V)
    (ttl : Int) (now : Int) : Cache V :=
  let c := if !c.isTTL then ({ c with isTTL := true } : Cache V).startTTLCleanupTimer else c
  let item : Item V := ({ data := data, expires := none } : Item V).touch ttl now
  { c with items := mapSet c.items key item }

/-- `Cache.Get`: looks the key up; in TTL mode an absent or expired entry
reads as `(nil, false)`, a live entry is re-touched in place with the
default TTL (modelled by writing the touched item back) and returned; in
unbounded mode a plain lookup with no state change. -/
def Cache.Get {V : Type} (c : Cache V) (key : String) (now : Int) :
    (Option V × Bool) × Cache V :=
  let item? := mapGet c.items key
  if c.isTTL then
    match item? with
    | none => ((none, false), c)
    | some item =>
      if item.expired now then ((none, false), c)
      else
        let item' := item.touch c.ttl now
        ((some item.data, true), { c with items := mapSet c.items key item' })
  else
    match item? with
    | some item => ((some item.data, true), c)
    | none => ((none, false), c)

/-- `Cache.Count`: `len(cache.items)`. -/
def Cache.Count {V : Type} (c : Cache V) : Nat :=
  c.items.length

/-- `Cache.Clear`: deletes every key of the map, leaving it empty; all
other fields unchanged. -/
def Cache.Clear {V : Type} (c : Cache V) : Cache V :=
  { c with items := [] }

/-- `Cache.ttlCleanup`: one reaper tick; in TTL mode deletes every entry
whose `expired()` holds, otherwise does nothing. -/
def Cache.ttlCleanup {V : Type} (c : Cache V) (now : Int) : Cache V :=
  if c.isTTL then
    { c with items := c.items.filter (fun p => !(p.2.expired now)) }
  else c

/-- `Cache.Delete`: checks presence with a map read, then deletes;
performed with no lock acquisition in the source. -/
def Cache.Delete {V : Type} (c : Cache V) (key : String) : Cache V :=
  match mapGet c.items key with
  | some _ => { c with items := mapDelete c.items key }
  | none => c

/-- The public operations and the reaper sweep of `cache.go`. -/
inductive Op where
  | set
  | setTTL
  | get
  | count
  | clear
  | delete
  | cleanup
deriving Repr, DecidableEq

/-- The lock discipline a method body runs under. -/
inductive Access where
  | exclusive
  | shared
  | unguarded
deriving Repr, DecidableEq

/-- The lock acquisition at the top of each method in `cache.go`:
`mutex.Lock()` is exclusive, `mutex.RLock()` is shared, and `Delete`
takes no lock at all. -/
def accessOf : Op → Access
  | .set => .exclusive
  | .setTTL => .exclusive
  | .get => .shared
  | .count => .shared
  | .clear => .exclusive
  | .delete => .unguarded
  | .cleanup => .exclusive

/-- `sync.RWMutex` admission: two lock-holding sections may overlap iff
both hold the read lock; a section that takes no lock is never blocked. -/
def compatible : Access → Access → Bool
  | .unguarded, _ => true
  | _, .unguarded => true
  | .shared, .shared => true
  | _, _ => false

/-- Cache states reachable from a constructor by the public operations
and reaper ticks. -/
inductive Reachable {V : Type} : Cache V → Prop where
  | newCache : Reachable NewCache
  | newTTLCache (d : Int) : Reachable (NewTTLCache d)
  | set {c} (k : String) (v : V) (now : Int) :
      Reachable c → Reachable (c.Set k v now)
  | setTTL {c} (k : String) (v : V) (ttl now : Int) :
      Reachable c → Reachable (c.SetTTL k v ttl now)
  | get {c} (k : String) (now : Int) :
      Reachable c → Reachable (c.Get k now).2
  | delete {c} (k : String) :
      Reachable c → Reachable (c.Delete k)
  | clear {c} :
      Reachable c → Reachable c.Clear
  | cleanup {c} (now : Int) :
      Reachable c → Reachable (c.ttlCleanup now)

/-! ### Map lemmas -/

theorem mapGet_mapSet_self {V : Type} (m : List (String × Item V)) (k : String) (v : Item V) :
    mapGet (mapSet m k v) k = some v := by
  induction m with
  | nil => simp [mapSet, mapGet]
  | cons hd tl ih =>
    obtain ⟨k', v'⟩ := hd
    by_cases h : k' = k
    · simp [mapSet, mapGet, h]
    · simp [mapSet, mapGet, h, ih]

theorem mapGet_mapSet_ne {V : Type} (m : List (String × Item V)) (k k' : String) (v : Item V)
    (h : k ≠ k') : mapGet (mapSet m k v) k' = mapGet m k' := by
  have h' : k' ≠ k := fun hh => h hh.symm
  induction m with
  | nil => simp [mapSet, mapGet, h]
  | cons hd tl ih =>
    obtain ⟨k₀, v₀⟩ := hd
    by_cases h₀ : k₀ = k
    · subst h₀
      simp [mapSet, mapGet, h, h']
    · simp [mapSet, mapGet, h₀, ih]

theorem mapDelete_of_mapGet_none {V : Type} (m : List (String × Item V)) (k : String)
    (h : mapGet m k = none) : mapDelete m k = m := by
  induction m with
  | nil => simp [mapDelete]
  | cons hd tl ih =>
    obtain ⟨k', v'⟩ := hd
    by_cases hk : k' = k
    · simp [mapGet, hk] at h
    · simp [mapGet, hk] at h
      simp [mapDelete, hk, ih h]

/-! ### C1: `Get` in TTL mode -/

/-- C1. In TTL mode `Get` treats an absent key, and an expired entry,
as `(nil, false)` with no state change; a present unexpired entry is
returned as `(value, true)` and re-touched in place with the default
TTL, so its expiration becomes `now + defaultTTL`. -/
theorem get_ttl_spec {V : Type} (c : Cache V) (k : String) (now : Int)
    (hTTL : c.isTTL = true) :
    (mapGet c.items k = none → c.Get k now = ((none, false), c))
    ∧ (∀ i : Item V, mapGet c.items k = some i → i.expired now = true →
        c.Get k now = ((none, false), c))
    ∧ (∀ i : Item V, mapGet c.items k = some i → i.expired now = false →
        (c.Get k now).1 = (some i.data, true)
        ∧ mapGet (c.Get k now).2.items k = some (i.touch c.ttl now)
        ∧ (i.touch c.ttl now).expires = some (now + c.ttl)) := by
  refine ⟨?_, ?_, ?_⟩
  · intro h
    simp [Cache.Get, hTTL, h]
  · intro i hi hexp
    simp [Cache.Get, hTTL, hi, hexp]
  · intro i hi hexp
    refine ⟨?_, ?_, rfl⟩
    · simp [Cache.Get, hTTL, hi, hexp]
    · simp [Cache.Get, hTTL, hi, hexp, mapGet_mapSet_self]

/-- Witness for C1 at a concrete cache: key `"a"` stored at time 0 with
default TTL 10 is still live at time 3, reads back as `(some 5, true)`
and its expiration is pushed to `13`; key `"zz"` is absent. -/
theorem get_ttl_spec_witness :
    ((((NewTTLCache 10 : Cache Nat).Set "a" 5 0).Get "a" 3).1 = (some 5, true)
      ∧ mapGet ((((NewTTLCache 10 : Cache Nat).Set "a" 5 0).Get "a" 3)).2.items "a"
          = some ⟨5, some 13⟩)
    ∧ (((NewTTLCache 10 : Cache Nat).Set "a" 5 0).Get "zz" 3 = ((none, false), (NewTTLCache 10 : Cache Nat).Set "a" 5 0)) := by
  have h := get_ttl_spec ((NewTTLCache 10 : Cache Nat).Set "a" 5 0) "a" 3 (by decide)
  have habs := (get_ttl_spec ((NewTTLCache 10 : Cache Nat).Set "a" 5 0) "zz" 3 (by decide)).1
  refine ⟨?_, habs (by decide)⟩
  have h3 := h.2.2 ⟨5, some 10⟩ (by decide) (by decide)
  exact ⟨h3.1, by rw [h3.2.1]; decide⟩

/-! ### C2: reaper tick -/

/-- C2. A reaper tick on a TTL-mode cache keeps exactly the entries whose
`expired()` is false (an entry survives the tick iff it was there and is
unexpired); on an unbounded cache a tick is the identity. -/
theorem ttlCleanup_spec {V : Type} (c : Cache V) (now : Int) :
    (c.isTTL = true →
      ∀ e : String × Item V,
        e ∈ (c.ttlCleanup now).items ↔ e ∈ c.items ∧ e.2.expired now = false)
    ∧ (c.isTTL = false → c.ttlCleanup now = c) := by
  constructor
  · intro hTTL e
    simp [Cache.ttlCleanup, hTTL, List.mem_filter]
  · intro hUB
    simp [Cache.ttlCleanup, hUB]

/-- Witness for C2: in a TTL cache holding `"a"` (expires 5) and `"b"`
(expires 15), the tick at time 7 drops `"a"` and keeps `"b"`; a tick on
an unbounded cache changes nothing. -/
theorem ttlCleanup_spec_witness :
    (("a", (⟨1, some 5⟩ : Item Nat)) ∉
        ((((NewTTLCache 5 : Cache Nat).Set "a" 1 0).Set "b" 2 10).ttlCleanup 7).items
      ∧ ("b", (⟨2, some 15⟩ : Item Nat)) ∈
        ((((NewTTLCache 5 : Cache Nat).Set "a" 1 0).Set "b" 2 10).ttlCleanup 7).items)
    ∧ ((NewCache : Cache Nat).Set "x" 1 0).ttlCleanup 7 = (NewCache : Cache Nat).Set "x" 1 0 := by
  have h := ttlCleanup_spec (((NewTTLCache 5 : Cache Nat).Set "a" 1 0).Set "b" 2 10) 7
  have hub := (ttlCleanup_spec ((NewCache : Cache Nat).Set "x" 1 0) 7).2 (by decide)
  refine ⟨⟨?_, ?_⟩, hub⟩
  · intro hmem
    have := (h.1 (by decide) _).mp hmem
    exact absurd this.2 (by decide)
  · exact (h.1 (by decide) _).mpr ⟨by decide, by decide⟩

/-! ### C3: `SetTTL` never writes the default TTL -/

/-- C3. `SetTTL` leaves the `ttl` field untouched; a cache built by
`NewCache` and switched into TTL mode by `SetTTL` therefore keeps
`ttl = 0`, and on such a cache every `Set` and every successful `Get`
re-touch stamps the entry with `expiresAt = now`, which is expired at
every strictly later instant. -/
theorem setTTL_keeps_defaultTTL {V : Type} (c : Cache V) :
    (∀ (k : String) (v : V) (ttl now : Int), (c.SetTTL k v ttl now).ttl = c.ttl)
    ∧ (∀ (k : String) (v : V) (ttl now : Int),
        ((NewCache : Cache V).SetTTL k v ttl now).ttl = 0
        ∧ ((NewCache : Cache V).SetTTL k v ttl now).isTTL = true)
    ∧ (c.isTTL = true → c.ttl = 0 →
        ∀ (k : String) (v : V) (now : Int),
          mapGet (c.Set k v now).items k = some ⟨v, some now⟩
          ∧ (∀ t : Int, now < t → Item.expired (⟨v, some now⟩ : Item V) t = true)
          ∧ (∀ i : Item V, mapGet c.items k = some i → i.expired now = false →
              mapGet (c.Get k now).2.items k = some ⟨i.data, some now⟩)) := by
  refine ⟨?_, ?_, ?_⟩
  · intro k v ttl now
    by_cases h : c.isTTL <;>
      simp [Cache.SetTTL, Cache.startTTLCleanupTimer, h]
  · intro k v ttl now
    constructor <;> simp [Cache.SetTTL, NewCache, Cache.startTTLCleanupTimer]
  · intro hTTL hzero k v now
    refine ⟨?_, ?_, ?_⟩
    · simp [Cache.Set, hTTL, Item.touch, hzero, mapGet_mapSet_self]
    · intro t ht
      simp [Item.expired, ht]
    · intro i hi hexp
      simp [Cache.Get, hTTL, hi, hexp, Item.touch, hzero, mapGet_mapSet_self]

/-- Witness for C3 at the concrete cache `NewCache` then
`SetTTL "k" 7 100 0`: its `ttl` is still `0`, it is in TTL mode, a later
`Set "m" 3` at time 4 stores expiry 4 (expired at time 5), and a
successful `Get "k"` at time 4 collapses that entry's expiry to 4. -/
theorem setTTL_keeps_defaultTTL_witness :
    (((NewCache : Cache Nat).SetTTL "k" 7 100 0).ttl = 0
      ∧ ((NewCache : Cache Nat).SetTTL "k" 7 100 0).isTTL = true)
    ∧ mapGet (((NewCache : Cache Nat).SetTTL "k" 7 100 0).Set "m" 3 4).items "m"
        = some ⟨3, some 4⟩
    ∧ Item.expired (⟨3, some 4⟩ : Item Nat) 5 = true
    ∧ mapGet ((((NewCache : Cache Nat).SetTTL "k" 7 100 0).Get "k" 4)).2.items "k"
        = some ⟨7, some 4⟩ := by
  have hbase := (setTTL_keeps_defaultTTL (V := Nat) NewCache).2.1 "k" 7 100 0
  have h := (setTTL_keeps_defaultTTL ((NewCache : Cache Nat).SetTTL "k" 7 100 0)).2.2
      (by decide) (by decide)
  refine ⟨hbase, (h "m" 3 4).1, (h "m" 3 4).2.1 5 (by decide), ?_⟩
  exact (h "k" 7 4).2.2 ⟨7, some 100⟩ (by decide) (by decide)

/-! ### C5: `Count` is a raw size -/

/-- C5. `Count` is the raw map size: at any instant it splits as the
number of expired entries plus the number of unexpired ones, and in TTL
mode it exceeds the post-tick count by exactly the number of
expired-but-not-yet-reaped entries.  (`Count` is a pure function of the
state: it returns a number and no updated cache.) -/
theorem count_spec {V : Type} (c : Cache V) (now : Int) :
    c.Count = (c.items.filter (fun p => p.2.expired now)).length
        + (c.items.filter (fun p => !(p.2.expired now))).length
    ∧ (c.isTTL = true →
        c.Count = (c.ttlCleanup now).Count
            + (c.items.filter (fun p => p.2.expired now)).length) := by
  have hsplit := (List.filter_append_perm (fun p => p.2.expired now) c.items).length_eq
  simp only [List.length_append] at hsplit
  constructor
  · simpa [Cache.Count] using hsplit.symm
  · intro hTTL
    have h2 : (c.ttlCleanup now).Count = (c.items.filter (fun p => !(p.2.expired now))).length := by
      simp [Cache.ttlCleanup, hTTL, Cache.Count]
    have hc : c.Count = c.items.length := rfl
    omega

/-- Witness for C5: the TTL cache holding `"a"` (expires 5, expired at 7)
and `"b"` (expires 15, live at 7) counts 2 entries, one more than after
the reaper tick at time 7. -/
theorem count_spec_witness :
    (((NewTTLCache 5 : Cache Nat).Set "a" 1 0).Set "b" 2 10).Count
      = ((((NewTTLCache 5 : Cache Nat).Set "a" 1 0).Set "b" 2 10).ttlCleanup 7).Count
        + (((((NewTTLCache 5 : Cache Nat).Set "a" 1 0).Set "b" 2 10).items.filter
            (fun p => p.2.expired 7)).length)
    ∧ (((NewTTLCache 5 : Cache Nat).Set "a" 1 0).Set "b" 2 10).Count = 2
    ∧ ((((NewTTLCache 5 : Cache Nat).Set "a" 1 0).Set "b" 2 10).ttlCleanup 7).Count = 1 := by
  refine ⟨(count_spec (((NewTTLCache 5 : Cache Nat).Set "a" 1 0).Set "b" 2 10) 7).2
      (by decide), by decide, by decide⟩

/-! ### C8: totality, boolean absence, `Delete` on an absent key -/

/-- C8. Every operation is a total Lean function (it always returns a
result and none of the result types is an error/`Except`); absence is
reported only through `Get`'s boolean, which is `false` exactly when the
returned payload is absent; and `Delete` of an absent key returns the
cache unchanged. -/
theorem total_ops_spec {V : Type} (c : Cache V) (k : String) (now : Int) :
    (mapGet c.items k = none → c.Delete k = c)
    ∧ ((c.Get k now).1.2 = false ↔ (c.Get k now).1.1 = none) := by
  constructor
  · intro h
    simp [Cache.Delete, h]
  · by_cases hTTL : c.isTTL
    · cases hi : mapGet c.items k with
      | none => simp [Cache.Get, hTTL, hi]
      | some i =>
        by_cases hexp : i.expired now
        · simp [Cache.Get, hTTL, hi, hexp]
        · simp [Cache.Get, hTTL, hi, hexp]
    · cases hi : mapGet c.items k with
      | none => simp [Cache.Get, hTTL, hi]
      | some i => simp [Cache.Get, hTTL, hi]

/-- Witness for C8: deleting the absent key `"a"` from a fresh unbounded
cache returns it unchanged, and a `Get` of that key reports absence
through the boolean. -/
theorem total_ops_spec_witness :
    (NewCache : Cache Nat).Delete "a" = NewCache
    ∧ (((NewCache : Cache Nat).Get "a" 0).1.2 = false
        ↔ ((NewCache : Cache Nat).Get "a" 0).1.1 = none) :=
  ⟨(total_ops_spec (NewCache : Cache Nat) "a" 0).1 rfl,
    (total_ops_spec (NewCache : Cache Nat) "a" 0).2⟩

/-! ### C9: `Get` in unbounded mode -/

/-- C9. In unbounded mode `Get` returns `(value, true)` on a present key
and `(nil, false)` otherwise, and the returned cache state is exactly the
input state: no field, no entry, and no expiration changes. -/
theorem get_unbounded_spec {V : Type} (c : Cache V) (k : String) (now : Int)
    (hUB : c.isTTL = false) :
    (c.Get k now).2 = c
    ∧ (∀ i : Item V, mapGet c.items k = some i → (c.Get k now).1 = (some i.data, true))
    ∧ (mapGet c.items k = none → (c.Get k now).1 = (none, false)) := by
  refine ⟨?_, ?_, ?_⟩
  · cases hi : mapGet c.items k <;> simp [Cache.Get, hUB, hi]
  · intro i hi
    simp [Cache.Get, hUB, hi]
  · intro h
    simp [Cache.Get, hUB, h]

/-- Witness for C9: on the unbounded cache holding `"h" ↦ 9`, a lookup of
`"h"` returns `(some 9, true)`, a lookup of `"x"` returns
`(none, false)`, and both leave the state equal to the input. -/
theorem get_unbounded_spec_witness :
    ((((NewCache : Cache Nat).Set "h" 9 0).Get "h" 3).2 = (NewCache : Cache Nat).Set "h" 9 0)
    ∧ ((((NewCache : Cache Nat).Set "h" 9 0).Get "h" 3).1 = (some 9, true))
    ∧ ((((NewCache : Cache Nat).Set "h" 9 0).Get "x" 3).1 = (none, false)) := by
  have h1 := get_unbounded_spec ((NewCache : Cache Nat).Set "h" 9 0) "h" 3 (by decide)
  have h2 := get_unbounded_spec ((NewCache : Cache Nat).Set "h" 9 0) "x" 3 (by decide)
  exact ⟨h1.1, h1.2.1 ⟨9, none⟩ (by decide), h2.2.2 (by decide)⟩

/-! ### Frame lemmas: which fields each operation can write -/

theorem set_frame {V : Type} (c : Cache V) (k : String) (v : V) (now : Int) :
    (c.Set k v now).isTTL = c.isTTL ∧ (c.Set k v now).ttl = c.ttl
      ∧ (c.Set k v now).periods = c.periods :=
  ⟨rfl, rfl, rfl⟩

theorem clear_frame {V : Type} (c : Cache V) :
    c.Clear.isTTL = c.isTTL ∧ c.Clear.ttl = c.ttl ∧ c.Clear.periods = c.periods :=
  ⟨rfl, rfl, rfl⟩

theorem delete_frame {V : Type} (c : Cache V) (k : String) :
    (c.Delete k).isTTL = c.isTTL ∧ (c.Delete k).ttl = c.ttl
      ∧ (c.Delete k).periods = c.periods := by
  cases hi : mapGet c.items k <;> simp [Cache.Delete, hi]

theorem cleanup_frame {V : Type} (c : Cache V) (now : Int) :
    (c.ttlCleanup now).isTTL = c.isTTL ∧ (c.ttlCleanup now).ttl = c.ttl
      ∧ (c.ttlCleanup now).periods = c.periods := by
  by_cases h : c.isTTL <;> simp [Cache.ttlCleanup, h]

theorem get_snd_frame {V : Type} (c : Cache V) (k : String) (now : Int) :
    (c.Get k now).2.isTTL = c.isTTL ∧ (c.Get k now).2.ttl = c.ttl
      ∧ (c.Get k now).2.periods = c.periods := by
  by_cases h : c.isTTL
  · cases hi : mapGet c.items k with
    | none => simp [Cache.Get, h, hi]
    | some i => by_cases hexp : i.expired now <;> simp [Cache.Get, h, hi, hexp]
  · cases hi : mapGet c.items k <;> simp [Cache.Get, h, hi]

theorem get_snd_unbounded {V : Type} (c : Cache V) (k : String) (now : Int)
    (h : c.isTTL = false) : (c.Get k now).2 = c := by
  cases hi : mapGet c.items k <;> simp [Cache.Get, h, hi]

theorem setTTL_frame {V : Type} (c : Cache V) (k : String) (v : V) (t now : Int) :
    (c.SetTTL k v t now).isTTL = true ∧ (c.SetTTL k v t now).ttl = c.ttl
      ∧ (c.SetTTL k v t now).periods
          = (if c.isTTL then c.periods
             else c.periods ++ [if c.ttl < millisecond then millisecond else c.ttl]) := by
  by_cases h : c.isTTL <;>
    simp [Cache.SetTTL, Cache.startTTLCleanupTimer, h]

/-! ### Membership lemmas for the map operations -/

theorem mem_mapSet {V : Type} {m : List (String × Item V)} {k : String} {v : Item V}
    {e : String × Item V} (he : e ∈ mapSet m k v) : e = (k, v) ∨ e ∈ m := by
  induction m with
  | nil =>
    simp [mapSet] at he
    exact Or.inl he
  | cons hd tl ih =>
    obtain ⟨k', v'⟩ := hd
    by_cases hk : k' = k
    · simp [mapSet, hk] at he
      rcases he with he | he
      · exact Or.inl he
      · exact Or.inr (List.mem_cons_of_mem _ he)
    · simp [mapSet, hk] at he
      rcases he with he | he
      · exact Or.inr (by simp [he])
      · rcases ih he with h | h
        · exact Or.inl h
        · exact Or.inr (List.mem_cons_of_mem _ h)

theorem mem_mapDelete {V : Type} {m : List (String × Item V)} {k : String}
    {e : String × Item V} (he : e ∈ mapDelete m k) : e ∈ m := by
  induction m with
  | nil => simp [mapDelete] at he
  | cons hd tl ih =>
    obtain ⟨k', v'⟩ := hd
    by_cases hk : k' = k
    · simp [mapDelete, hk] at he
      exact List.mem_cons_of_mem _ he
    · simp [mapDelete, hk] at he
      rcases he with he | he
      · simp [he]
      · exact List.mem_cons_of_mem _ (ih he)

/-! ### The reaper-launch invariant on reachable states -/

/-- On every reachable cache state, the ghost launch record holds exactly
one reaper (with the clamped period) in TTL mode and none in unbounded
mode. -/
theorem reachable_periods {V : Type} {c : Cache V} (h : Reachable c) :
    c.periods = (if c.isTTL then [if c.ttl < millisecond then millisecond else c.ttl]
                 else []) := by
  induction h with
  | newCache => simp [NewCache]
  | newTTLCache d => simp [NewTTLCache, Cache.startTTLCleanupTimer]
  | @set c k v now hr ih =>
    obtain ⟨h1, h2, h3⟩ := set_frame c k v now
    rw [h1, h2, h3, ih]
  | @setTTL c k v t now hr ih =>
    obtain ⟨h1, h2, h3⟩ := setTTL_frame c k v t now
    rw [h1, h2, h3, ih]
    by_cases hc : c.isTTL <;> simp [hc]
  | @get c k now hr ih =>
    obtain ⟨h1, h2, h3⟩ := get_snd_frame c k now
    rw [h1, h2, h3, ih]
  | @delete c k hr ih =>
    obtain ⟨h1, h2, h3⟩ := delete_frame c k
    rw [h1, h2, h3, ih]
  | @clear c hr ih =>
    obtain ⟨h1, h2, h3⟩ := clear_frame c
    rw [h1, h2, h3, ih]
  | @cleanup c now hr ih =>
    obtain ⟨h1, h2, h3⟩ := cleanup_frame c now
    rw [h1, h2, h3, ih]

/-! ### C4: one-way mode transition, reaper started exactly once -/

/-- C4. On every reachable state the number of reaper launches is one in
TTL mode and zero in unbounded mode (so the TTL constructor and the first
unbounded-`SetTTL` are the only launch sites and never launch twice); no
operation other than `SetTTL` changes the mode; `SetTTL` always leaves
the cache in TTL mode; and a `SetTTL` on a cache already in TTL mode
launches no reaper. -/
theorem mode_once_spec {V : Type} (c : Cache V) :
    (Reachable c → c.periods.length = (if c.isTTL then 1 else 0))
    ∧ (∀ d : Int, (NewTTLCache d : Cache V).periods.length = 1
        ∧ (NewTTLCache d : Cache V).isTTL = true)
    ∧ ((NewCache : Cache V).periods.length = 0 ∧ (NewCache : Cache V).isTTL = false)
    ∧ (∀ (k : String) (v : V) (now : Int), (c.Set k v now).isTTL = c.isTTL)
    ∧ (∀ (k : String) (now : Int), (c.Get k now).2.isTTL = c.isTTL)
    ∧ (∀ k : String, (c.Delete k).isTTL = c.isTTL)
    ∧ c.Clear.isTTL = c.isTTL
    ∧ (∀ now : Int, (c.ttlCleanup now).isTTL = c.isTTL)
    ∧ (∀ (k : String) (v : V) (t now : Int), (c.SetTTL k v t now).isTTL = true)
    ∧ (c.isTTL = true →
        ∀ (k : String) (v : V) (t now : Int), (c.SetTTL k v t now).periods = c.periods) := by
  refine ⟨?_, ?_, ?_, ?_, ?_, ?_, ?_, ?_, ?_, ?_⟩
  · intro hr
    rw [reachable_periods hr]
    by_cases h : c.isTTL <;> simp [h]
  · intro d
    constructor <;> simp [NewTTLCache, Cache.startTTLCleanupTimer]
  · exact ⟨rfl, rfl⟩
  · intro k v now
    exact (set_frame c k v now).1
  · intro k now
    exact (get_snd_frame c k now).1
  · intro k
    exact (delete_frame c k).1
  · exact (clear_frame c).1
  · intro now
    exact (cleanup_frame c now).1
  · intro k v t now
    exact (setTTL_frame c k v t now).1
  · intro h k v t now
    rw [(setTTL_frame c k v t now).2.2, h]
    simp

/-- Witness for C4 at a concrete run: an unbounded cache hit by two
`SetTTL` calls is in TTL mode with exactly one reaper launched. -/
theorem mode_once_spec_witness :
    ((((NewCache : Cache Nat).SetTTL "k" 1 5 0).SetTTL "j" 2 9 1).periods.length = 1)
    ∧ ((((NewCache : Cache Nat).SetTTL "k" 1 5 0).SetTTL "j" 2 9 1).isTTL = true) := by
  have h := (mode_once_spec (((NewCache : Cache Nat).SetTTL "k" 1 5 0).SetTTL "j" 2 9 1)).1
    (Reachable.setTTL "j" 2 9 1 (Reachable.setTTL "k" 1 5 0 Reachable.newCache))
  refine ⟨?_, by decide⟩
  rw [h]
  decide

/-! ### C6: the reaper period -/

/-- The clamp in `startTTLCleanupTimer` is a lower bound of one
millisecond. -/
theorem clamp_eq_max (t : Int) :
    (if t < millisecond then millisecond else t) = max t millisecond := by
  rcases lt_or_le t millisecond with h | h
  · simp [h, max_eq_right h.le]
  · simp [not_lt.mpr h, max_eq_left h]

/-- C6. On every reachable TTL-mode state the single recorded reaper
period is `max defaultTTL 1ms`, computed from the `ttl` field — which no
operation ever rewrites — at activation time; and no operation (in
particular no later `SetTTL` on a TTL-mode cache) changes the recorded
period. -/
theorem reaper_period_spec {V : Type} (c : Cache V) :
    (Reachable c → c.isTTL = true → c.periods = [max c.ttl millisecond])
    ∧ (∀ (k : String) (v : V) (now : Int),
        (c.Set k v now).periods = c.periods ∧ (c.Set k v now).ttl = c.ttl)
    ∧ (∀ (k : String) (now : Int),
        (c.Get k now).2.periods = c.periods ∧ (c.Get k now).2.ttl = c.ttl)
    ∧ (∀ k : String, (c.Delete k).periods = c.periods ∧ (c.Delete k).ttl = c.ttl)
    ∧ (c.Clear.periods = c.periods ∧ c.Clear.ttl = c.ttl)
    ∧ (∀ now : Int, (c.ttlCleanup now).periods = c.periods ∧ (c.ttlCleanup now).ttl = c.ttl)
    ∧ (∀ (k : String) (v : V) (t now : Int),
        (c.SetTTL k v t now).ttl = c.ttl
        ∧ (c.isTTL = true → (c.SetTTL k v t now).periods = c.periods)) := by
  refine ⟨?_, ?_, ?_, ?_, ?_, ?_, ?_⟩
  · intro hr hT
    rw [reachable_periods hr, hT, clamp_eq_max]
    simp
  · intro k v now
    exact ⟨(set_frame c k v now).2.2, (set_frame c k v now).2.1⟩
  · intro k now
    exact ⟨(get_snd_frame c k now).2.2, (get_snd_frame c k now).2.1⟩
  · intro k
    exact ⟨(delete_frame c k).2.2, (delete_frame c k).2.1⟩
  · exact ⟨(clear_frame c).2.2, (clear_frame c).2.1⟩
  · intro now
    exact ⟨(cleanup_frame c now).2.2, (cleanup_frame c now).2.1⟩
  · intro k v t now
    refine ⟨(setTTL_frame c k v t now).2.1, fun h => ?_⟩
    rw [(setTTL_frame c k v t now).2.2, h]
    simp

/-- Witness for C6: a cache entering TTL mode via `SetTTL` with
`defaultTTL = 0` gets the clamped one-millisecond period, and a later
`SetTTL` with a huge duration leaves the period untouched. -/
theorem reaper_period_spec_witness :
    ((NewCache : Cache Nat).SetTTL "k" 1 5 0).periods = [1000000]
    ∧ ((((NewCache : Cache Nat).SetTTL "k" 1 5 0).SetTTL "j" 2 777777777 1).periods
        = [1000000]) := by
  have h := (reaper_period_spec ((NewCache : Cache Nat).SetTTL "k" 1 5 0)).1
    (Reachable.setTTL "k" 1 5 0 Reachable.newCache) (by decide)
  have h2 := ((reaper_period_spec ((NewCache : Cache Nat).SetTTL "k" 1 5 0)).2.2.2.2.2.2
    "j" 2 777777777 1).2 (by decide)
  constructor
  · rw [h]; decide
  · rw [h2, h]; decide

/-! ### C7: the mode/expiration invariant -/

/-- In unbounded mode no reachable state holds an entry with a set
expiration: `Set` is the only insertion path there and does not touch. -/
theorem reachable_unbounded_untouched {V : Type} {c : Cache V} (h : Reachable c) :
    c.isTTL = false → ∀ e ∈ c.items, e.2.expires = none := by
  induction h with
  | newCache =>
    intro _ e he
    simp [NewCache] at he
  | newTTLCache d =>
    intro hf
    simp [NewTTLCache, Cache.startTTLCleanupTimer] at hf
  | @set c k v now hr ih =>
    intro hub e he
    have hc : c.isTTL = false := by rw [← (set_frame c k v now).1]; exact hub
    simp only [Cache.Set, hc] at he
    simp at he
    rcases mem_mapSet he with rfl | hmem
    · rfl
    · exact ih hc e hmem
  | @setTTL c k v t now hr ih =>
    intro hub
    rw [(setTTL_frame c k v t now).1] at hub
    simp at hub
  | @get c k now hr ih =>
    intro hub e he
    have hc : c.isTTL = false := by rw [← (get_snd_frame c k now).1]; exact hub
    rw [get_snd_unbounded c k now hc] at he
    exact ih hc e he
  | @delete c k hr ih =>
    intro hub e he
    have hc : c.isTTL = false := by rw [← (delete_frame c k).1]; exact hub
    cases hi : mapGet c.items k with
    | some i =>
      simp only [Cache.Delete, hi] at he
      exact ih hc e (mem_mapDelete he)
    | none =>
      simp only [Cache.Delete, hi] at he
      exact ih hc e he
  | @clear c hr ih =>
    intro hub e he
    simp [Cache.Clear] at he
  | @cleanup c now hr ih =>
    intro hub e he
    have hc : c.isTTL = false := by rw [← (cleanup_frame c now).1]; exact hub
    simp only [Cache.ttlCleanup, hc] at he
    simp at he
    exact ih hc e he

/-- C7 counterexample to the claim as stated: the reachable state
obtained by `Set "a" 1` on an unbounded cache followed by
`SetTTL "b" 2 5` is in TTL mode yet still holds the entry `"a"` with no
expiration set. -/
theorem mode_invariant_counterexample :
    Reachable (((NewCache : Cache Nat).Set "a" 1 0).SetTTL "b" 2 5 0)
    ∧ (((NewCache : Cache Nat).Set "a" 1 0).SetTTL "b" 2 5 0).isTTL = true
    ∧ mapGet (((NewCache : Cache Nat).Set "a" 1 0).SetTTL "b" 2 5 0).items "a"
        = some ⟨1, none⟩ :=
  ⟨Reachable.setTTL "b" 2 5 0 (Reachable.set "a" 1 0 Reachable.newCache),
    by decide, by decide⟩

/-- C7 (amended). In unbounded mode no reachable state holds an entry
with a set expiration; in TTL mode every entry *written while in TTL
mode* (by `Set`, by `SetTTL`, or by a successful `Get` re-touch) carries
a set `expiresAt` — but entries inserted before the transition may
persist without one. -/
theorem mode_invariant_spec {V : Type} (c : Cache V) :
    (Reachable c → c.isTTL = false → ∀ e ∈ c.items, e.2.expires = none)
    ∧ (c.isTTL = true → ∀ (k : String) (v : V) (now : Int),
        mapGet (c.Set k v now).items k = some ⟨v, some (now + c.ttl)⟩)
    ∧ (∀ (k : String) (v : V) (t now : Int),
        mapGet (c.SetTTL k v t now).items k = some ⟨v, some (now + t)⟩)
    ∧ (c.isTTL = true → ∀ (k : String) (now : Int) (i : Item V),
        mapGet c.items k = some i → i.expired now = false →
        mapGet (c.Get k now).2.items k = some ⟨i.data, some (now + c.ttl)⟩) := by
  refine ⟨fun hr => reachable_unbounded_untouched hr, ?_, ?_, ?_⟩
  · intro hT k v now
    simp [Cache.Set, hT, Item.touch, mapGet_mapSet_self]
  · intro k v t now
    by_cases h : c.isTTL <;>
      simp [Cache.SetTTL, Cache.startTTLCleanupTimer, h, Item.touch, mapGet_mapSet_self]
  · intro hT k now i hi hexp
    simp [Cache.Get, hT, hi, hexp, Item.touch, mapGet_mapSet_self]

/-- Witness for the amended C7: the unbounded cache holding only `"a"`
has no expiration on it, and after `SetTTL "b" 2 5` at time 0 the new
entry `"b"` carries expiry 5. -/
theorem mode_invariant_spec_witness :
    ((⟨1, none⟩ : Item Nat).expires = none)
    ∧ mapGet (((NewCache : Cache Nat).Set "a" 1 0).SetTTL "b" 2 5 0).items "b"
        = some ⟨2, some 5⟩ := by
  have h1 := (mode_invariant_spec ((NewCache : Cache Nat).Set "a" 1 0)).1
    (Reachable.set "a" 1 0 Reachable.newCache) (by decide)
    ("a", ⟨1, none⟩) (by decide)
  have h2 := (mode_invariant_spec ((NewCache : Cache Nat).Set "a" 1 0)).2.2.1 "b" 2 5 0
  exact ⟨h1, by rw [h2]; decide⟩

/-! ### C10: lock discipline -/

/-- C10. The lock taken by each method of `cache.go`: the mutators
`Set`, `SetTTL`, `Clear` and the reaper sweep take the write lock,
`Get` and `Count` take the read lock (mutually compatible, excluded by
any write-lock holder), and `Delete` takes no lock at all, so nothing
excludes its read-modify-write from any concurrent operation. -/
theorem lock_discipline_spec :
    accessOf .set = .exclusive
    ∧ accessOf .setTTL = .exclusive
    ∧ accessOf .clear = .exclusive
    ∧ accessOf .cleanup = .exclusive
    ∧ accessOf .get = .shared
    ∧ accessOf .count = .shared
    ∧ accessOf .delete = .unguarded
    ∧ compatible .shared .shared = true
    ∧ compatible .exclusive .shared = false
    ∧ compatible .shared .exclusive = false
    ∧ compatible .exclusive .exclusive = false
    ∧ compatible .unguarded .exclusive = true
    ∧ compatible .unguarded .shared = true
    ∧ compatible .exclusive .unguarded = true := by
  decide

end TTLCache
